import Mathlib

/-!
# Verification of `src/bept/analysis/opt_files/surface_pdb_sasa.py`

Shallow embedding of the surface-residue aggregation module.

Modelling choices:
* A CSV row, as produced by `csv.DictReader`, is an association list from
  column name to cell string; `dictGet` is Python dict lookup (`row[k]`,
  `None` result standing for `KeyError`).
* Python `float` values are embedded as exact rationals (`ℚ`); `parseFloat`
  embeds the `float(str)` conversion on the decimal fragment relevant here
  (optional sign, integer and/or fractional digits), returning `none` where
  Python raises `ValueError`.
* `defaultdict(float)` and the plain `dict` are insertion-ordered association
  lists, exactly as Python dicts preserve insertion order: `addPot` is
  `resi_potentials[k] += p` and `setName` is `resi_names[k] = v`.
* External effects that can raise (`os.makedirs`, opening the input CSV,
  writing each output file, and the whole `calc_sasa` call which re-parses
  the PDB file) are modelled by a `World` of outcomes; `get_surface_resi`
  is a pure function of the world, returning the `(path, error-flag)` pair
  together with the data rows durably written to each output file.
-/

set_option autoImplicit false

namespace SurfacePdbSasa

/-- A `csv.DictReader` row: association list from column name to cell text. -/
abbrev Row := List (String × String)

/-- Python dict lookup: first binding of the key, `none` for `KeyError`. -/
def dictGet {β : Type} (m : List (String × β)) (k : String) : Option β :=
  match m with
  | [] => none
  | (k', v) :: rest => if k' = k then some v else dictGet rest k

/-- Value of a digit list read in base 10 (`0` on the empty list). -/
def digitsToNat (cs : List Char) : ℕ :=
  cs.foldl (fun a c => 10 * a + (c.toNat - 48)) 0

/-- Unsigned part of Python `float(str)` on the decimal fragment:
digits, optionally with a dot and fractional digits (`"1."`, `".5"` allowed,
`"."` and empty rejected, as in Python). -/
def parseUnsigned (cs : List Char) : Option ℚ :=
  let intPart := cs.takeWhile (fun c => c ≠ '.')
  match cs.dropWhile (fun c => c ≠ '.') with
  | [] =>
      if intPart ≠ [] ∧ intPart.all Char.isDigit then some (digitsToNat intPart : ℚ)
      else none
  | '.' :: frac =>
      if (intPart ≠ [] ∨ frac ≠ []) ∧ intPart.all Char.isDigit ∧ frac.all Char.isDigit then
        some ((digitsToNat intPart : ℚ) + (digitsToNat frac : ℚ) / 10 ^ frac.length)
      else none
  | _ => none

/-- Python `float(str)`: optional sign then an unsigned decimal numeral;
`none` stands for `ValueError`. -/
def parseFloat (s : String) : Option ℚ :=
  match s.data with
  | '-' :: rest => (parseUnsigned rest).map Neg.neg
  | '+' :: rest => parseUnsigned rest
  | cs => parseUnsigned cs

/-- State of the aggregation loop: `resi_potentials` (a `defaultdict(float)`)
and `resi_names` (a `dict`), both insertion-ordered. -/
structure AggState where
  potentials : List (String × ℚ)
  names : List (String × String)
  deriving DecidableEq, Repr

/-- `resi_potentials[k] += p` on a `defaultdict(float)`: add in place when the
key is present, else append the key with value `p` (= `0.0 + p`). -/
def addPot (l : List (String × ℚ)) (k : String) (p : ℚ) : List (String × ℚ) :=
  match l with
  | [] => [(k, p)]
  | (k', v) :: rest => if k' = k then (k', v + p) :: rest else (k', v) :: addPot rest k p

/-- `resi_names[k] = n` on a `dict`: overwrite in place when the key is
present, else append. -/
def setName (m : List (String × String)) (k n : String) : List (String × String) :=
  match m with
  | [] => [(k, n)]
  | (k', v) :: rest => if k' = k then (k', n) :: rest else (k', v) :: setName rest k n

/-- One iteration of the `for row in csvreader` loop.  Field lookups and the
`float` conversion happen in source order; any `KeyError`/`ValueError` aborts
the whole operation (`Except.error`). -/
def processRow (st : AggState) (row : Row) : Except Unit AggState :=
  match dictGet row "Resi_Seq" with
  | none => .error ()
  | some resi_seq =>
      match dictGet row "Potential" with
      | none => .error ()
      | some potStr =>
          match parseFloat potStr with
          | none => .error ()
          | some potential =>
              let pots := addPot st.potentials resi_seq potential
              match dictGet row "Resi" with
              | none => .error ()
              | some name => .ok ⟨pots, setName st.names resi_seq name⟩

/-- The reading loop from a given starting state. -/
def processRowsFrom (st : AggState) (rows : List Row) : Except Unit AggState :=
  match rows with
  | [] => .ok st
  | r :: rs =>
      match processRow st r with
      | .error e => .error e
      | .ok st' => processRowsFrom st' rs

/-- Reading the whole input CSV, starting from empty dictionaries. -/
def processRows (rows : List Row) : Except Unit AggState :=
  processRowsFrom ⟨[], []⟩ rows

/-- Data rows of the output CSV file: one row `[resi_names[k], k, potential]`
per entry of `resi_potentials`, in insertion order (the header
`Resi, Resi_Seq, Resi_Potential` is fixed and not repeated here). -/
def csvDataRows (st : AggState) : List (String × String × ℚ) :=
  st.potentials.map (fun kp => ((dictGet st.names kp.1).getD "", kp.1, kp.2))

/-- Data rows of `table_data`, the rows written by `tabulate` to the text
file: the same comprehension over `resi_potentials.items()`. -/
def tabDataRows (st : AggState) : List (String × String × ℚ) :=
  st.potentials.map (fun kp => ((dictGet st.names kp.1).getD "", kp.1, kp.2))

/-- Python `str.endswith`. -/
def pyEndsWith (s suffix : String) : Bool :=
  decide (s.data.drop (s.data.length - suffix.data.length) = suffix.data)

/-- Python `str.startswith`. -/
def pyStartsWith (s pre : String) : Bool :=
  decide (s.data.take pre.data.length = pre.data)

/-- `posixpath.join` for two components, as used in the module. -/
def pathJoin (a b : String) : String :=
  if pyStartsWith b "/" then b
  else if a = "" ∨ pyEndsWith a "/" then a ++ b
  else a ++ "/" ++ b

/-- Index of the last occurrence of a character (Python `str.rfind`,
with `none` for `-1`). -/
def lastIdx? (l : List Char) (c : Char) : Option ℕ :=
  match l with
  | [] => none
  | x :: xs =>
      match lastIdx? xs c with
      | some i => some (i + 1)
      | none => if x = c then some 0 else none

/-- Root component of `posixpath.splitext`: split at the last dot when it
lies after the last separator and at least one non-dot character of the
basename precedes it; otherwise return the path unchanged. -/
def splitextRoot (p : String) : String :=
  let cs := p.data
  let sepIndex : Int := match lastIdx? cs '/' with | some i => (i : Int) | none => -1
  let dotIndex : Int := match lastIdx? cs '.' with | some i => (i : Int) | none => -1
  if sepIndex < dotIndex then
    if ((cs.drop (sepIndex + 1).toNat).take (dotIndex - sepIndex - 1).toNat).any
        (fun c => c ≠ '.') then
      String.mk (cs.take dotIndex.toNat)
    else p
  else p

/-- The identifier computed by `biop_fetch` (the opaque structure handle
returned alongside it lives in the external parser and is not modelled):
`os.path.splitext(protein_file)[0]` when the name ends in `".pdb"`, else the
name unchanged. -/
def biop_fetch_id (protein_file : String) : String :=
  if pyEndsWith protein_file ".pdb" then splitextRoot protein_file else protein_file

/-- Outcomes of the external effects of one `get_surface_resi` call, in
program order: `os.makedirs`, opening/reading the input CSV (`some rows`
when it opens and its records parse into dicts), the two file writes, and
the `calc_sasa` call (PDB re-parse + SASA computation, which may raise). -/
structure World where
  makedirsOk : Bool
  inputFile : Option (List Row)
  writeCsvOk : Bool
  writeTabOk : Bool
  sasaOk : Bool
  deriving DecidableEq, Repr

/-- Observable outcome of `get_surface_resi`: the returned
`(destination_surface_resi_path, err_surface_calc)` pair and the data rows
durably written to each output file (`none` when the write never completed). -/
structure GSRResult where
  path : String
  err : Bool
  csvFile : Option (List (String × String × ℚ))
  tabFile : Option (List (String × String × ℚ))
  deriving DecidableEq, Repr

/-- `get_surface_resi(protein_file, protein_bept_csvpath, output_dir)`:
the whole body runs inside one `try`; any failing step jumps to the handler,
which sets the error flag and leaves `destination_surface_resi_path` at
whatever value it had (the empty string unless the text file was already
written and only `calc_sasa` failed). -/
def get_surface_resi (protein_file : String) (w : World) (output_dir : String) : GSRResult :=
  if w.makedirsOk = false then ⟨"", true, none, none⟩ else
  match w.inputFile with
  | none => ⟨"", true, none, none⟩
  | some rows =>
      match processRows rows with
      | .error _ => ⟨"", true, none, none⟩
      | .ok st =>
          if w.writeCsvOk = false then ⟨"", true, none, none⟩ else
          if w.writeTabOk = false then ⟨"", true, some (csvDataRows st), none⟩ else
          let destination := pathJoin output_dir (protein_file ++ "_surface_data.txt")
          if w.sasaOk = false then
            ⟨destination, true, some (csvDataRows st), some (tabDataRows st)⟩
          else
            ⟨destination, false, some (csvDataRows st), some (tabDataRows st)⟩

/-- Whether any step of `get_surface_resi` raises before
`destination_surface_resi_path` is assigned (everything up to and including
the text-table write). -/
def failsBeforePath (w : World) : Bool :=
  !w.makedirsOk ||
    (match w.inputFile with
     | none => true
     | some rows =>
        match processRows rows with
        | .error _ => true
        | .ok _ => !w.writeCsvOk || !w.writeTabOk)

/-- Whether any exception at all is raised (and caught) during the call. -/
def raisesExc (w : World) : Bool :=
  failsBeforePath w || !w.sasaOk

/-! ### Specification-side helper definitions

These are used only to state properties; they are not part of the embedding
of the source. -/

/-- `Resi_Seq` field of an input row. -/
def rowKey (r : Row) : Option String := dictGet r "Resi_Seq"

/-- Parsed `Potential` field of an input row. -/
def rowPot (r : Row) : Option ℚ := (dictGet r "Potential").bind parseFloat

/-- `Resi` field of an input row. -/
def rowName (r : Row) : Option String := dictGet r "Resi"

/-- Append a key if it is not already present (how a new dictionary key
enters the insertion order). -/
def insKey (ks : List String) (k : String) : List String :=
  if k ∈ ks then ks else ks ++ [k]

/-- First component over the second, `Option.or` spelled out. -/
def optOr {α : Type} : Option α → Option α → Option α
  | some a, _ => some a
  | none, b => b

/-- `Resi` value of the last input row carrying the given `Resi_Seq` key. -/
def lastResiName (rows : List Row) (k : String) : Option String :=
  match rows with
  | [] => none
  | r :: rs =>
      optOr (lastResiName rs k)
        (if rowKey r = some k then rowName r else none)

/-- The part of a character list after its last `'/'` (the whole list when
there is none). -/
def afterLastSep (l : List Char) : List Char :=
  match lastIdx? l '/' with
  | some i => l.drop (i + 1)
  | none => l

/-- Decomposition of a filename ending in `".pdb"`: the character list before
that suffix, or `none` when the name does not end in `".pdb"`. -/
def pdbStem (s : String) : Option (List Char) :=
  if s.data.drop (s.data.length - 4) = ['.', 'p', 'd', 'b'] then
    some (s.data.take (s.data.length - 4))
  else none

/-- Agreement of two input rows on the three columns the aggregation reads. -/
def rowAgree (r₁ r₂ : Row) : Prop :=
  rowName r₁ = rowName r₂ ∧ rowKey r₁ = rowKey r₂ ∧
    dictGet r₁ "Potential" = dictGet r₂ "Potential"

/-- Keys in order of first encounter, each exactly once: keep the first
occurrence of every key, at the position where it first appears. -/
def firstEncounter (ks : List String) : List String :=
  match ks with
  | [] => []
  | k :: rest => k :: (firstEncounter rest).filter (fun x => x ≠ k)

/-- The example input rows from the specification (section 8). -/
def demoRows : List Row :=
  [[("Resi", "ALA"), ("Resi_Seq", "12"), ("Potential", "1.5")],
   [("Resi", "ALA"), ("Resi_Seq", "12"), ("Potential", "2.5")],
   [("Resi", "GLY"), ("Resi_Seq", "13"), ("Potential", "0.0")]]

/-- Aggregation state reached on `demoRows`. -/
def demoSt : AggState :=
  ⟨[("12", 4), ("13", 0)], [("12", "ALA"), ("13", "GLY")]⟩

/-- Two rows sharing a `Resi_Seq` key but with different `Resi` names. -/
def dupRows : List Row :=
  [[("Resi", "ALA"), ("Resi_Seq", "12"), ("Potential", "1.5")],
   [("Resi", "GLY"), ("Resi_Seq", "12"), ("Potential", "2.5")]]

/-- Aggregation state reached on `dupRows`. -/
def dupSt : AggState :=
  ⟨[("12", 4)], [("12", "GLY")]⟩

/-! ## Helper lemmas -/

@[simp] theorem dictGet_nil {β : Type} (k : String) :
    dictGet ([] : List (String × β)) k = none := rfl

@[simp] theorem dictGet_cons {β : Type} (k' k : String) (v : β) (rest : List (String × β)) :
    dictGet ((k', v) :: rest) k = if k' = k then some v else dictGet rest k := rfl

@[simp] theorem optOr_some {α : Type} (a : α) (b : Option α) : optOr (some a) b = some a := rfl

@[simp] theorem optOr_none {α : Type} (b : Option α) : optOr none b = b := rfl

theorem optOr_assoc {α : Type} (a b c : Option α) :
    optOr (optOr a b) c = optOr a (optOr b c) := by
  cases a <;> rfl

theorem optOr_isSome {α : Type} (a b : Option α) :
    (optOr a b).isSome = (a.isSome || b.isSome) := by
  cases a <;> simp

theorem addPot_keys (l : List (String × ℚ)) (k : String) (p : ℚ) :
    (addPot l k p).map Prod.fst = insKey (l.map Prod.fst) k := by
  induction l with
  | nil => simp [addPot, insKey]
  | cons hd tl ih =>
      obtain ⟨k', v⟩ := hd
      by_cases hk : k' = k
      · subst hk
        simp [addPot, insKey]
      · by_cases hm : k ∈ tl.map Prod.fst <;>
          simp [addPot, hk, ih, insKey, hm, Ne.symm hk]

theorem addPot_sum (l : List (String × ℚ)) (k : String) (p : ℚ) :
    ((addPot l k p).map Prod.snd).sum = (l.map Prod.snd).sum + p := by
  induction l with
  | nil => simp [addPot]
  | cons hd tl ih =>
      obtain ⟨k', v⟩ := hd
      by_cases hk : k' = k
      · subst hk
        simp [addPot]
        ring
      · simp [addPot, hk, ih]
        ring

theorem dictGet_setName (m : List (String × String)) (k n k' : String) :
    dictGet (setName m k n) k' = if k = k' then some n else dictGet m k' := by
  induction m with
  | nil =>
      simp only [setName, dictGet_cons, dictGet_nil]
  | cons hd tl ih =>
      obtain ⟨k₀, v⟩ := hd
      by_cases h0 : k₀ = k
      · subst h0
        by_cases h1 : k₀ = k' <;> simp [setName, h1]
      · by_cases h1 : k₀ = k'
        · subst h1
          simp [setName, h0, Ne.symm h0]
        · simp [setName, h0, h1, ih]

theorem processRow_ok_inv (st : AggState) (row : Row) (st' : AggState)
    (h : processRow st row = .ok st') :
    ∃ k p n, rowKey row = some k ∧ rowPot row = some p ∧ rowName row = some n ∧
      st' = ⟨addPot st.potentials k p, setName st.names k n⟩ := by
  unfold processRow at h
  cases hk : dictGet row "Resi_Seq" with
  | none => simp only [hk] at h; exact Except.noConfusion h
  | some k =>
      simp only [hk] at h
      cases hps : dictGet row "Potential" with
      | none => simp only [hps] at h; exact Except.noConfusion h
      | some pstr =>
          simp only [hps] at h
          cases hpf : parseFloat pstr with
          | none => simp only [hpf] at h; exact Except.noConfusion h
          | some p =>
              simp only [hpf] at h
              cases hn : dictGet row "Resi" with
              | none => simp only [hn] at h; exact Except.noConfusion h
              | some n =>
                  simp only [hn] at h
                  refine ⟨k, p, n, hk, ?_, hn, ?_⟩
                  · simp [rowPot, hps, hpf]
                  · cases h.symm
                    rfl

theorem processRowsFrom_nil (st : AggState) : processRowsFrom st [] = .ok st := rfl

theorem processRowsFrom_cons (st : AggState) (r : Row) (rs : List Row) :
    processRowsFrom st (r :: rs) =
      match processRow st r with
      | .error e => .error e
      | .ok st' => processRowsFrom st' rs := rfl

theorem processRowsFrom_ok_sum (rows : List Row) (st st' : AggState)
    (h : processRowsFrom st rows = .ok st') :
    (st'.potentials.map Prod.snd).sum =
      (st.potentials.map Prod.snd).sum + (rows.filterMap rowPot).sum := by
  induction rows generalizing st with
  | nil =>
      rw [processRowsFrom_nil] at h
      cases h
      simp
  | cons r rs ih =>
      rw [processRowsFrom_cons] at h
      cases hp : processRow st r with
      | error e => rw [hp] at h; cases h
      | ok st₁ =>
          rw [hp] at h
          obtain ⟨k, p, n, hk, hpot, hn, hst⟩ := processRow_ok_inv _ _ _ hp
          rw [ih _ h, hst]
          simp [List.filterMap_cons, hpot, addPot_sum]
          ring

theorem processRowsFrom_ok_keys (rows : List Row) (st st' : AggState)
    (h : processRowsFrom st rows = .ok st') :
    st'.potentials.map Prod.fst =
      (rows.filterMap rowKey).foldl insKey (st.potentials.map Prod.fst) := by
  induction rows generalizing st with
  | nil =>
      rw [processRowsFrom_nil] at h
      cases h
      simp
  | cons r rs ih =>
      rw [processRowsFrom_cons] at h
      cases hp : processRow st r with
      | error e => rw [hp] at h; cases h
      | ok st₁ =>
          rw [hp] at h
          obtain ⟨k, p, n, hk, hpot, hn, hst⟩ := processRow_ok_inv _ _ _ hp
          rw [ih _ h, hst]
          simp [List.filterMap_cons, hk, addPot_keys]

theorem processRowsFrom_ok_names (rows : List Row) (st st' : AggState) (k : String)
    (h : processRowsFrom st rows = .ok st') :
    dictGet st'.names k = optOr (lastResiName rows k) (dictGet st.names k) := by
  induction rows generalizing st with
  | nil =>
      rw [processRowsFrom_nil] at h
      cases h
      simp [lastResiName]
  | cons r rs ih =>
      rw [processRowsFrom_cons] at h
      cases hp : processRow st r with
      | error e => rw [hp] at h; cases h
      | ok st₁ =>
          rw [hp] at h
          obtain ⟨kr, p, n, hk, hpot, hn, hst⟩ := processRow_ok_inv _ _ _ hp
          rw [ih _ h, hst]
          show optOr (lastResiName rs k) (dictGet (setName st.names kr n) k) = _
          rw [lastResiName, optOr_assoc]
          congr 1
          rw [dictGet_setName, hk, hn]
          by_cases hkk : kr = k
          · subst hkk
            simp
          · simp [hkk, Option.some_inj]

theorem processRowsFrom_ok_fields (rows : List Row) (st st' : AggState)
    (h : processRowsFrom st rows = .ok st') :
    ∀ r ∈ rows, (rowKey r).isSome ∧ (rowPot r).isSome ∧ (rowName r).isSome := by
  induction rows generalizing st with
  | nil => intro r hr; cases hr
  | cons r₀ rs ih =>
      rw [processRowsFrom_cons] at h
      cases hp : processRow st r₀ with
      | error e => rw [hp] at h; cases h
      | ok st₁ =>
          rw [hp] at h
          intro r hr
          rcases List.mem_cons.mp hr with hr0 | hrs
          · subst hr0
            obtain ⟨k, p, n, hk, hpot, hn, _⟩ := processRow_ok_inv _ _ _ hp
            exact ⟨by simp [hk], by simp [hpot], by simp [hn]⟩
          · exact ih _ h r hrs

theorem nodup_foldl_insKey (ks : List String) (acc : List String) (h : acc.Nodup) :
    (ks.foldl insKey acc).Nodup := by
  induction ks generalizing acc with
  | nil => exact h
  | cons k ks ih =>
      rw [List.foldl_cons]
      apply ih
      unfold insKey
      split
      · exact h
      · rename_i hm
        simp [List.nodup_append, h, hm]

theorem toFinset_foldl_insKey (ks : List String) (acc : List String) :
    (ks.foldl insKey acc).toFinset = acc.toFinset ∪ ks.toFinset := by
  induction ks generalizing acc with
  | nil => simp
  | cons k ks ih =>
      rw [List.foldl_cons, ih]
      unfold insKey
      split
      · rename_i hm
        ext x
        by_cases hx : x = k <;> simp [hx, hm]
      · ext x
        by_cases hx : x = k <;> simp [hx]

theorem mem_foldl_insKey (ks : List String) (acc : List String) (k : String) :
    k ∈ ks.foldl insKey acc ↔ k ∈ acc ∨ k ∈ ks := by
  rw [← List.mem_toFinset, toFinset_foldl_insKey]
  simp

theorem lastResiName_isSome (rows : List Row) (r : Row) (k : String)
    (hr : r ∈ rows) (hk : rowKey r = some k) (hn : (rowName r).isSome) :
    (lastResiName rows k).isSome := by
  induction rows with
  | nil => cases hr
  | cons r₀ rs ih =>
      rw [lastResiName, optOr_isSome]
      rcases List.mem_cons.mp hr with hr0 | hrs
      · subst hr0
        simp [hk, hn]
      · simp [ih hrs]

theorem lastIdx?_lt (l : List Char) (c : Char) (i : ℕ) (h : lastIdx? l c = some i) :
    i < l.length := by
  induction l generalizing i with
  | nil => simp [lastIdx?] at h
  | cons x xs ih =>
      rw [lastIdx?] at h
      cases h' : lastIdx? xs c with
      | some j =>
          simp only [h'] at h
          obtain rfl : j + 1 = i := Option.some.inj h
          have := ih j h'
          simp only [List.length_cons]
          omega
      | none =>
          simp only [h'] at h
          split at h
          · obtain rfl : 0 = i := Option.some.inj h
            simp
          · exact Option.noConfusion h

theorem lastIdx?_append (l₁ l₂ : List Char) (c : Char) :
    lastIdx? (l₁ ++ l₂) c =
      match lastIdx? l₂ c with
      | some i => some (l₁.length + i)
      | none => lastIdx? l₁ c := by
  induction l₁ with
  | nil => cases h : lastIdx? l₂ c <;> simp [h, lastIdx?]
  | cons x xs ih =>
      show (match lastIdx? (xs ++ l₂) c with
            | some i => some (i + 1)
            | none => if x = c then some 0 else none) = _
      rw [ih]
      cases h₂ : lastIdx? l₂ c with
      | some i =>
          simp only [List.length_cons, Option.some.injEq]
          omega
      | none => rfl

theorem splitextRoot_pdb (s : String) (t : List Char)
    (h : s.data = t ++ ['.', 'p', 'd', 'b']) :
    splitextRoot s =
      if (afterLastSep t).any (fun c => c ≠ '.') then String.mk t else s := by
  have hdot : lastIdx? s.data '.' = some t.length := by
    rw [h, lastIdx?_append]
    rfl
  have hsep : lastIdx? s.data '/' = lastIdx? t '/' := by
    rw [h, lastIdx?_append]
    rfl
  simp only [splitextRoot]
  rw [hdot, hsep]
  cases hj : lastIdx? t '/' with
  | none =>
      have hlt : (-1 : Int) < (t.length : Int) := by omega
      rw [if_pos hlt]
      have h0 : ((-1 : Int) + 1).toNat = 0 := rfl
      have h1 : ((t.length : Int) - (-1) - 1).toNat = t.length := by omega
      have h2 : ((t.length : Int)).toNat = t.length := by omega
      simp only [h0, h1, h2, List.drop_zero, h, List.take_left]
      simp only [afterLastSep, hj]
  | some j =>
      have hjlt := lastIdx?_lt t '/' j hj
      have hlt : (j : Int) < (t.length : Int) := by exact_mod_cast hjlt
      rw [if_pos hlt]
      have h0 : ((j : Int) + 1).toNat = j + 1 := by omega
      have h1 : ((t.length : Int) - (j : Int) - 1).toNat = t.length - (j + 1) := by omega
      have h2 : ((t.length : Int)).toNat = t.length := by omega
      have hdrop : (t ++ ['.', 'p', 'd', 'b']).drop (j + 1) = t.drop (j + 1) ++ ['.', 'p', 'd', 'b'] :=
        List.drop_append_of_le_length (by omega)
      have htake : (t.drop (j + 1) ++ ['.', 'p', 'd', 'b']).take (t.length - (j + 1)) = t.drop (j + 1) :=
        List.take_left' (by rw [List.length_drop])
      simp only [h0, h1, h2, h, hdrop, htake, List.take_left]
      simp only [afterLastSep, hj]

theorem optOr_none_right {α : Type} (a : Option α) : optOr a none = a := by
  cases a <;> rfl

theorem length_filterMap_of_isSome {α β : Type} (l : List α) (f : α → Option β)
    (h : ∀ a ∈ l, (f a).isSome) : (l.filterMap f).length = l.length := by
  induction l with
  | nil => rfl
  | cons a l ih =>
      have ha := h a (List.mem_cons_self a l)
      cases hf : f a with
      | none => rw [hf] at ha; simp at ha
      | some b =>
          simp only [List.filterMap_cons, hf, List.length_cons]
          rw [ih (fun x hx => h x (List.mem_cons_of_mem _ hx))]

theorem foldl_insKey_eq_firstEncounter_aux (ks : List String) (acc : List String) :
    ks.foldl insKey acc = acc ++ (firstEncounter ks).filter (fun x => x ∉ acc) := by
  induction ks generalizing acc with
  | nil => simp [firstEncounter]
  | cons k rest ih =>
      rw [List.foldl_cons, ih, firstEncounter, List.filter_cons]
      by_cases hk : k ∈ acc
      · rw [insKey, if_pos hk]
        have hdec : decide (k ∉ acc) = false := by simp [hk]
        rw [hdec, if_neg (by simp)]
        congr 1
        rw [List.filter_filter]
        apply List.filter_congr
        intro x _
        by_cases hxk : x = k
        · subst hxk
          simp [hk]
        · simp [hxk]
      · rw [insKey, if_neg hk]
        have hdec : decide (k ∉ acc) = true := by simp [hk]
        rw [hdec, if_pos rfl]
        rw [List.append_assoc, List.singleton_append]
        congr 2
        rw [List.filter_filter]
        apply List.filter_congr
        intro x _
        by_cases hxk : x = k
        · subst hxk
          simp [hk, List.mem_append]
        · simp [hxk, List.mem_append]

theorem foldl_insKey_eq_firstEncounter (ks : List String) :
    ks.foldl insKey [] = firstEncounter ks := by
  rw [foldl_insKey_eq_firstEncounter_aux]
  simp

theorem processRow_agree (st : AggState) (r₁ r₂ : Row) (h : rowAgree r₁ r₂) :
    processRow st r₁ = processRow st r₂ := by
  obtain ⟨hn, hk, hp⟩ := h
  simp only [rowName] at hn
  simp only [rowKey] at hk
  unfold processRow
  simp only [hn, hk, hp]

theorem processRowsFrom_agree (rows₁ rows₂ : List Row)
    (h : List.Forall₂ rowAgree rows₁ rows₂) :
    ∀ st, processRowsFrom st rows₁ = processRowsFrom st rows₂ := by
  induction h with
  | nil => intro st; rfl
  | cons hag htail ih =>
      intro st
      rename_i a b l₁ l₂
      rw [processRowsFrom_cons, processRowsFrom_cons, processRow_agree st a b hag]
      cases processRow st b with
      | error e => rfl
      | ok st' => exact ih st'

theorem gsr_characterization (pf dir : String) (w : World) :
    (get_surface_resi pf w dir).err = raisesExc w ∧
    (get_surface_resi pf w dir).path =
      (if failsBeforePath w = true then "" else pathJoin dir (pf ++ "_surface_data.txt")) := by
  obtain ⟨mk, inp, wc, wt, ws⟩ := w
  cases inp with
  | none =>
      cases mk <;> cases wc <;> cases wt <;> cases ws <;>
        simp [get_surface_resi, raisesExc, failsBeforePath]
  | some rows =>
      cases hp : processRows rows with
      | error e =>
          cases mk <;> cases wc <;> cases wt <;> cases ws <;>
            simp [get_surface_resi, raisesExc, failsBeforePath, hp]
      | ok st =>
          cases mk <;> cases wc <;> cases wt <;> cases ws <;>
            simp [get_surface_resi, raisesExc, failsBeforePath, hp]

theorem gsr_csvFile_inv (pf dir : String) (w : World) (rows : List Row)
    (out : List (String × String × ℚ))
    (h1 : w.inputFile = some rows)
    (h2 : (get_surface_resi pf w dir).csvFile = some out) :
    ∃ st, processRows rows = .ok st ∧ out = csvDataRows st := by
  obtain ⟨mk, inp, wc, wt, ws⟩ := w
  cases h1
  cases mk with
  | false => simp [get_surface_resi] at h2
  | true =>
      cases hp : processRows rows with
      | error e => simp [get_surface_resi, hp] at h2
      | ok st =>
          refine ⟨st, rfl, ?_⟩
          cases wc <;> cases wt <;> cases ws <;>
            simp [get_surface_resi, hp] at h2 <;>
            exact h2.symm

theorem gsr_tabFile_inv (pf dir : String) (w : World) (rows : List Row)
    (out : List (String × String × ℚ))
    (h1 : w.inputFile = some rows)
    (h2 : (get_surface_resi pf w dir).tabFile = some out) :
    ∃ st, processRows rows = .ok st ∧ out = tabDataRows st := by
  obtain ⟨mk, inp, wc, wt, ws⟩ := w
  cases h1
  cases mk with
  | false => simp [get_surface_resi] at h2
  | true =>
      cases hp : processRows rows with
      | error e => simp [get_surface_resi, hp] at h2
      | ok st =>
          refine ⟨st, rfl, ?_⟩
          cases wc <;> cases wt <;> cases ws <;>
            simp [get_surface_resi, hp] at h2 <;>
            exact h2.symm

theorem pathJoin_ne_empty (a b : String) (hb : b ≠ "") : pathJoin a b ≠ "" := by
  have hbdata : b.data ≠ [] := by
    intro hnil
    apply hb
    cases b with
    | mk data => exact congrArg String.mk hnil
  unfold pathJoin
  split
  · exact hb
  · split
    · intro hcontra
      apply hbdata
      have := congrArg String.data hcontra
      rw [String.data_append] at this
      exact (List.append_eq_nil.mp this).2
    · intro hcontra
      apply hbdata
      have := congrArg String.data hcontra
      rw [String.data_append, String.data_append] at this
      exact (List.append_eq_nil.mp this).2

theorem append_txt_ne_empty (pf : String) : pf ++ "_surface_data.txt" ≠ "" := by
  intro hcontra
  have := congrArg String.data hcontra
  rw [String.data_append] at this
  have h2 := (List.append_eq_nil.mp this).2
  simp at h2

/-! ## Claim theorems -/

/-- C6, counterexample: the filename `".pdb"` ends in `".pdb"`, so the claim
says `biop_fetch` returns it with the suffix removed, i.e. the empty string;
the code (via `os.path.splitext`, which never treats a basename consisting
solely of leading dots as an extension) returns `".pdb"` unchanged. -/
theorem c6_counterexample :
    pyEndsWith ".pdb" ".pdb" = true ∧
    biop_fetch_id ".pdb" = ".pdb" ∧ (".pdb" : String) ≠ "" := by
  refine ⟨by decide, ?_, by decide⟩
  decide

/-- C6, amended: for a filename ending in `".pdb"` (stem `t`), the identifier
returned by `biop_fetch` is the filename with the trailing `".pdb"` removed
exactly when the part of the stem after the last `'/'` contains a non-dot
character; otherwise (all-dots basename, e.g. `".pdb"` itself) and for
filenames not ending in `".pdb"`, the identifier is the filename unchanged. -/
theorem c6_identifier_strip (s : String) :
    biop_fetch_id s =
      match pdbStem s with
      | some t => if (afterLastSep t).any (fun c => c ≠ '.') then String.mk t else s
      | none => s := by
  by_cases hc : s.data.drop (s.data.length - 4) = ['.', 'p', 'd', 'b']
  · have hlen : (s.data.drop (s.data.length - 4)).length = 4 := by rw [hc]; rfl
    rw [List.length_drop] at hlen
    have hsplit : s.data = s.data.take (s.data.length - 4) ++ ['.', 'p', 'd', 'b'] := by
      conv_lhs => rw [← List.take_append_drop (s.data.length - 4) s.data, hc]
    have hend : pyEndsWith s ".pdb" = true := by
      simp only [pyEndsWith]
      rw [show (['.', 'p', 'd', 'b'] : List Char).length = 4 from rfl]
      exact decide_eq_true hc
    have hid : biop_fetch_id s = splitextRoot s := by
      unfold biop_fetch_id
      rw [hend]
      simp
    have hstem : pdbStem s = some (s.data.take (s.data.length - 4)) := by
      unfold pdbStem
      rw [if_pos hc]
    rw [hid, hstem]
    exact splitextRoot_pdb s _ hsplit
  · have hend : pyEndsWith s ".pdb" = false := by
      show decide (List.drop (s.data.length - 4) s.data = ['.', 'p', 'd', 'b']) = false
      exact decide_eq_false hc
    have hid : biop_fetch_id s = s := by
      unfold biop_fetch_id
      rw [hend]
      simp
    have hstem : pdbStem s = none := by
      unfold pdbStem
      rw [if_neg hc]
    rw [hid, hstem]

/-- C1, counterexample: when every step up to the text-table write succeeds
and only the final `calc_sasa` call raises, the exception is caught and the
error flag is true, but the returned path is the (non-empty) text-table path,
not the empty string the claim requires. -/
theorem c1_counterexample :
    (get_surface_resi "prot" ⟨true, some [], true, true, false⟩ "out").err = true ∧
    (get_surface_resi "prot" ⟨true, some [], true, true, false⟩ "out").path ≠ "" := by
  decide

/-- C1, amended: the error flag is true exactly when an exception was caught,
and the returned path is empty exactly when the failure happened before
`destination_surface_resi_path` was assigned (any failure except one confined
to the `calc_sasa` call); when only `calc_sasa` fails, the flag is true but
the path is the text-table path. -/
theorem c1_flag_and_path (pf dir : String) (w : World) :
    (get_surface_resi pf w dir).err = raisesExc w ∧
    (get_surface_resi pf w dir).path =
      (if failsBeforePath w = true then "" else pathJoin dir (pf ++ "_surface_data.txt")) :=
  gsr_characterization pf dir w

/-- C9: whenever `get_surface_resi` returns a false error flag, the returned
path is `os.path.join(output_dir, protein_file + "_surface_data.txt")` and is
non-empty. -/
theorem c9_success_path (pf dir : String) (w : World)
    (h : (get_surface_resi pf w dir).err = false) :
    (get_surface_resi pf w dir).path = pathJoin dir (pf ++ "_surface_data.txt") ∧
    (get_surface_resi pf w dir).path ≠ "" := by
  obtain ⟨herr, hpath⟩ := gsr_characterization pf dir w
  rw [h] at herr
  have hraise : raisesExc w = false := herr.symm
  have hbefore : failsBeforePath w = false := by
    unfold raisesExc at hraise
    exact (Bool.or_eq_false_iff.mp hraise).1
  rw [hbefore] at hpath
  simp only [Bool.false_eq_true, if_false] at hpath
  exact ⟨hpath, hpath ▸ pathJoin_ne_empty dir _ (append_txt_ne_empty pf)⟩

/-- C9, witness at a concrete successful run. -/
theorem c9_witness :
    (get_surface_resi "prot" ⟨true, some [], true, true, true⟩ "out").err = false ∧
    ((get_surface_resi "prot" ⟨true, some [], true, true, true⟩ "out").path =
        pathJoin "out" ("prot" ++ "_surface_data.txt") ∧
      (get_surface_resi "prot" ⟨true, some [], true, true, true⟩ "out").path ≠ "") :=
  ⟨by decide, c9_success_path "prot" "out" ⟨true, some [], true, true, true⟩ (by decide)⟩

/-- C2: on any run that wrote the output CSV, the sum of `Resi_Potential`
over the written rows equals the sum of the parsed `Potential` values over
all input rows, and no input row is dropped (potentials modelled as exact
rationals). -/
theorem c2_total_potential_conserved (pf dir : String) (w : World) (rows : List Row)
    (out : List (String × String × ℚ))
    (h1 : w.inputFile = some rows)
    (h2 : (get_surface_resi pf w dir).csvFile = some out) :
    (out.map (fun r => r.2.2)).sum = (rows.filterMap rowPot).sum ∧
    (rows.filterMap rowPot).length = rows.length := by
  obtain ⟨st, hok, hout⟩ := gsr_csvFile_inv pf dir w rows out h1 h2
  constructor
  · have hsum := processRowsFrom_ok_sum rows ⟨[], []⟩ st hok
    have hmap : out.map (fun r => r.2.2) = st.potentials.map Prod.snd := by
      rw [hout]
      simp [csvDataRows, List.map_map]
    rw [hmap]
    simpa using hsum
  · apply length_filterMap_of_isSome
    intro r hr
    exact (processRowsFrom_ok_fields rows ⟨[], []⟩ st hok r hr).2.1

/-- Concrete evaluation: `float("1.5")`. -/
theorem parseFloat_15 : parseFloat "1.5" = some (3/2 : ℚ) := by
  show parseUnsigned ['1', '.', '5'] = some (3/2 : ℚ)
  simp [parseUnsigned, digitsToNat]
  norm_num

/-- Concrete evaluation: `float("2.5")`. -/
theorem parseFloat_25 : parseFloat "2.5" = some (5/2 : ℚ) := by
  show parseUnsigned ['2', '.', '5'] = some (5/2 : ℚ)
  simp [parseUnsigned, digitsToNat]
  norm_num

/-- Concrete evaluation: `float("0.0")`. -/
theorem parseFloat_00 : parseFloat "0.0" = some (0 : ℚ) := by
  show parseUnsigned ['0', '.', '0'] = some (0 : ℚ)
  simp [parseUnsigned, digitsToNat]

/-- Concrete evaluation of the aggregation loop on `demoRows`. -/
theorem processRows_demo : processRows demoRows = .ok demoSt := by
  simp [processRows, processRowsFrom, processRow, demoRows, demoSt, dictGet, addPot, setName,
    parseFloat_15, parseFloat_25, parseFloat_00]
  norm_num

/-- Concrete evaluation of the aggregation loop on `dupRows`. -/
theorem processRows_dup : processRows dupRows = .ok dupSt := by
  simp [processRows, processRowsFrom, processRow, dupRows, dupSt, dictGet, addPot, setName,
    parseFloat_15, parseFloat_25]
  norm_num

/-- The demo run writes the CSV rows of `demoSt`. -/
theorem gsr_demo_csv :
    (get_surface_resi "prot" ⟨true, some demoRows, true, true, true⟩ "out").csvFile =
      some (csvDataRows demoSt) := by
  simp [get_surface_resi, processRows_demo]

/-- The demo run writes the text-table rows of `demoSt`. -/
theorem gsr_demo_tab :
    (get_surface_resi "prot" ⟨true, some demoRows, true, true, true⟩ "out").tabFile =
      some (tabDataRows demoSt) := by
  simp [get_surface_resi, processRows_demo]

/-- The duplicate-key run writes the CSV rows of `dupSt`. -/
theorem gsr_dup_csv :
    (get_surface_resi "prot" ⟨true, some dupRows, true, true, true⟩ "out").csvFile =
      some (csvDataRows dupSt) := by
  simp [get_surface_resi, processRows_dup]

/-- C2, witness on the spec's example rows. -/
theorem c2_witness :
    (⟨true, some demoRows, true, true, true⟩ : World).inputFile = some demoRows ∧
    (get_surface_resi "prot" ⟨true, some demoRows, true, true, true⟩ "out").csvFile =
      some (csvDataRows demoSt) ∧
    (((csvDataRows demoSt).map (fun r => r.2.2)).sum = (demoRows.filterMap rowPot).sum ∧
      (demoRows.filterMap rowPot).length = demoRows.length) :=
  ⟨rfl, gsr_demo_csv,
    c2_total_potential_conserved "prot" "out" ⟨true, some demoRows, true, true, true⟩
      demoRows (csvDataRows demoSt) rfl gsr_demo_csv⟩

/-- C3: on any run that wrote the output CSV, the set of `Resi_Seq` values of
the written rows equals the set of `Resi_Seq` values of the input rows, and
no key is written twice. -/
theorem c3_output_key_set (pf dir : String) (w : World) (rows : List Row)
    (out : List (String × String × ℚ))
    (h1 : w.inputFile = some rows)
    (h2 : (get_surface_resi pf w dir).csvFile = some out) :
    (out.map (fun r => r.2.1)).toFinset = (rows.filterMap rowKey).toFinset ∧
    (out.map (fun r => r.2.1)).Nodup := by
  obtain ⟨st, hok, hout⟩ := gsr_csvFile_inv pf dir w rows out h1 h2
  have hkeys := processRowsFrom_ok_keys rows ⟨[], []⟩ st hok
  have hmap : out.map (fun r => r.2.1) = st.potentials.map Prod.fst := by
    rw [hout]
    simp [csvDataRows, List.map_map]
  rw [hmap, hkeys]
  constructor
  · rw [toFinset_foldl_insKey]
    simp
  · exact nodup_foldl_insKey _ _ List.nodup_nil

/-- C3, witness on the spec's example rows. -/
theorem c3_witness :
    (⟨true, some demoRows, true, true, true⟩ : World).inputFile = some demoRows ∧
    (get_surface_resi "prot" ⟨true, some demoRows, true, true, true⟩ "out").csvFile =
      some (csvDataRows demoSt) ∧
    (((csvDataRows demoSt).map (fun r => r.2.1)).toFinset =
        (demoRows.filterMap rowKey).toFinset ∧
      ((csvDataRows demoSt).map (fun r => r.2.1)).Nodup) :=
  ⟨rfl, gsr_demo_csv,
    c3_output_key_set "prot" "out" ⟨true, some demoRows, true, true, true⟩
      demoRows (csvDataRows demoSt) rfl gsr_demo_csv⟩

/-- C4: on any run that wrote the output CSV, the `Resi` name written for a
key is the `Resi` of the last input row carrying that key. -/
theorem c4_last_occurrence_wins (pf dir : String) (w : World) (rows : List Row)
    (out : List (String × String × ℚ)) (resi seq : String) (pot : ℚ)
    (h1 : w.inputFile = some rows)
    (h2 : (get_surface_resi pf w dir).csvFile = some out)
    (hmem : (resi, seq, pot) ∈ out) :
    some resi = lastResiName rows seq := by
  obtain ⟨st, hok, hout⟩ := gsr_csvFile_inv pf dir w rows out h1 h2
  subst hout
  obtain ⟨⟨k, p⟩, hkp, heq⟩ := List.mem_map.mp hmem
  have hkseq : k = seq := congrArg (fun t => t.2.1) heq
  have hresi : (dictGet st.names k).getD "" = resi := congrArg Prod.fst heq
  subst hkseq
  have hnames := processRowsFrom_ok_names rows ⟨[], []⟩ st k hok
  rw [show dictGet (AggState.mk [] []).names k = none from rfl, optOr_none_right] at hnames
  have hkeys := processRowsFrom_ok_keys rows ⟨[], []⟩ st hok
  have hmemkey : k ∈ st.potentials.map Prod.fst := List.mem_map.mpr ⟨(k, p), hkp, rfl⟩
  rw [hkeys] at hmemkey
  have hmemrows : k ∈ rows.filterMap rowKey := by
    rcases (mem_foldl_insKey _ _ _).mp hmemkey with hin | hin
    · simp at hin
    · exact hin
  obtain ⟨r, hr, hrk⟩ := List.mem_filterMap.mp hmemrows
  have hfields := processRowsFrom_ok_fields rows ⟨[], []⟩ st hok r hr
  have hsome : (lastResiName rows k).isSome :=
    lastResiName_isSome rows r k hr hrk hfields.2.2
  obtain ⟨nm, hnm⟩ := Option.isSome_iff_exists.mp hsome
  rw [hnames, hnm] at hresi
  simp at hresi
  rw [hnm, ← hresi]

/-- C4, witness: two rows share key `"12"` with names `"ALA"` then `"GLY"`;
the written name is `"GLY"`, the last occurrence. -/
theorem c4_witness :
    (⟨true, some dupRows, true, true, true⟩ : World).inputFile = some dupRows ∧
    (get_surface_resi "prot" ⟨true, some dupRows, true, true, true⟩ "out").csvFile =
      some (csvDataRows dupSt) ∧
    ("GLY", "12", (4 : ℚ)) ∈ csvDataRows dupSt ∧
    some "GLY" = lastResiName dupRows "12" :=
  ⟨rfl, gsr_dup_csv, by simp [csvDataRows, dupSt, dictGet],
    c4_last_occurrence_wins "prot" "out" ⟨true, some dupRows, true, true, true⟩
      dupRows (csvDataRows dupSt) "GLY" "12" 4 rfl gsr_dup_csv
      (by simp [csvDataRows, dupSt, dictGet])⟩

/-- C5: on any run that wrote both output files, the CSV has one row per
distinct key in order of first encounter, and the text table holds exactly
the same rows in the same order. -/
theorem c5_first_encounter_order (pf dir : String) (w : World) (rows : List Row)
    (outCsv outTab : List (String × String × ℚ))
    (h1 : w.inputFile = some rows)
    (h2 : (get_surface_resi pf w dir).csvFile = some outCsv)
    (h3 : (get_surface_resi pf w dir).tabFile = some outTab) :
    outCsv.map (fun r => r.2.1) = firstEncounter (rows.filterMap rowKey) ∧
    outTab = outCsv := by
  obtain ⟨st, hok, hout⟩ := gsr_csvFile_inv pf dir w rows outCsv h1 h2
  obtain ⟨st', hok', hout'⟩ := gsr_tabFile_inv pf dir w rows outTab h1 h3
  have hst : st' = st := by
    rw [hok] at hok'
    exact (Except.ok.inj hok').symm
  constructor
  · have hkeys := processRowsFrom_ok_keys rows ⟨[], []⟩ st hok
    have hmap : outCsv.map (fun r => r.2.1) = st.potentials.map Prod.fst := by
      rw [hout]
      simp [csvDataRows, List.map_map]
    rw [hmap, hkeys]
    rw [show (AggState.mk [] []).potentials.map Prod.fst = [] from rfl]
    exact foldl_insKey_eq_firstEncounter _
  · rw [hout, hout', hst]
    rfl

/-- C5, witness on the spec's example rows. -/
theorem c5_witness :
    (⟨true, some demoRows, true, true, true⟩ : World).inputFile = some demoRows ∧
    (get_surface_resi "prot" ⟨true, some demoRows, true, true, true⟩ "out").csvFile =
      some (csvDataRows demoSt) ∧
    (get_surface_resi "prot" ⟨true, some demoRows, true, true, true⟩ "out").tabFile =
      some (tabDataRows demoSt) ∧
    ((csvDataRows demoSt).map (fun r => r.2.1) = firstEncounter (demoRows.filterMap rowKey) ∧
      tabDataRows demoSt = csvDataRows demoSt) :=
  ⟨rfl, gsr_demo_csv, gsr_demo_tab,
    c5_first_encounter_order "prot" "out" ⟨true, some demoRows, true, true, true⟩
      demoRows (csvDataRows demoSt) (tabDataRows demoSt) rfl gsr_demo_csv gsr_demo_tab⟩

/-- C7, counterexample: an input CSV with no data rows vacuously lacks the
`Potential` column in every row, yet the aggregation succeeds and returns a
false error flag, contradicting the claim's required true flag. -/
theorem c7_counterexample :
    ([] : List Row).all (fun r => (dictGet r "Potential").isNone) = true ∧
    (get_surface_resi "prot" ⟨true, some [], true, true, true⟩ "out").err = false := by
  decide

/-- C7, amended: for every input CSV containing at least one row whose
`Potential` field is missing or fails to parse as a number, `get_surface_resi`
returns an empty path and a true error flag. -/
theorem c7_bad_potential_aborts (pf dir : String) (w : World) (rows : List Row) (r : Row)
    (h1 : w.inputFile = some rows) (hr : r ∈ rows) (h2 : rowPot r = none) :
    (get_surface_resi pf w dir).path = "" ∧ (get_surface_resi pf w dir).err = true := by
  have hfail : ∀ st, ¬ processRows rows = .ok st := by
    intro st hok
    have hps := (processRowsFrom_ok_fields rows ⟨[], []⟩ st hok r hr).2.1
    rw [h2] at hps
    simp at hps
  obtain ⟨mk, inp, wc, wt, ws⟩ := w
  cases h1
  cases mk with
  | false => exact ⟨rfl, rfl⟩
  | true =>
      cases hp : processRows rows with
      | error e => constructor <;> simp [get_surface_resi, hp]
      | ok st => exact absurd hp (hfail st)

/-- C7, witness: a single row lacking the `Potential` field. -/
theorem c7_witness :
    rowPot [("Resi", "ALA"), ("Resi_Seq", "1")] = none ∧
    ((get_surface_resi "prot"
        ⟨true, some [[("Resi", "ALA"), ("Resi_Seq", "1")]], true, true, true⟩ "out").path = "" ∧
      (get_surface_resi "prot"
        ⟨true, some [[("Resi", "ALA"), ("Resi_Seq", "1")]], true, true, true⟩ "out").err = true) :=
  ⟨rfl,
    c7_bad_potential_aborts "prot" "out"
      ⟨true, some [[("Resi", "ALA"), ("Resi_Seq", "1")]], true, true, true⟩
      [[("Resi", "ALA"), ("Resi_Seq", "1")]] [("Resi", "ALA"), ("Resi_Seq", "1")]
      rfl (by decide) rfl⟩

/-- C8: if the CSV write completed and a later step (text-table write or
`calc_sasa`) fails, the error flag is true but the written CSV contents
remain; the handler performs no cleanup. -/
theorem c8_csv_survives_late_failure (pf dir : String) (w : World) (rows : List Row)
    (st : AggState)
    (h1 : w.makedirsOk = true) (h2 : w.inputFile = some rows)
    (h3 : processRows rows = .ok st) (h4 : w.writeCsvOk = true)
    (h5 : w.writeTabOk = false ∨ w.sasaOk = false) :
    (get_surface_resi pf w dir).err = true ∧
    (get_surface_resi pf w dir).csvFile = some (csvDataRows st) := by
  obtain ⟨mk, inp, wc, wt, ws⟩ := w
  cases h2
  subst h1
  subst h4
  rcases h5 with h5 | h5
  · subst h5
    cases ws <;> simp [get_surface_resi, h3]
  · subst h5
    cases wt <;> simp [get_surface_resi, h3]

/-- C8, witness: the text-table write fails after the CSV write succeeded. -/
theorem c8_witness :
    processRows ([] : List Row) = .ok ⟨[], []⟩ ∧
    ((get_surface_resi "prot" ⟨true, some [], true, false, true⟩ "out").err = true ∧
      (get_surface_resi "prot" ⟨true, some [], true, false, true⟩ "out").csvFile =
        some (csvDataRows ⟨[], []⟩)) :=
  ⟨rfl,
    c8_csv_survives_late_failure "prot" "out" ⟨true, some [], true, false, true⟩ [] ⟨[], []⟩
      rfl rfl rfl rfl (Or.inl rfl)⟩

/-- C10: two input CSVs whose rows agree pointwise on the `Resi`, `Resi_Seq`
and `Potential` columns produce identical results — return values and output
file contents — whatever other columns contain. -/
theorem c10_only_three_columns (pf dir : String) (mk wc wt ws : Bool)
    (rows₁ rows₂ : List Row) (h : List.Forall₂ rowAgree rows₁ rows₂) :
    get_surface_resi pf ⟨mk, some rows₁, wc, wt, ws⟩ dir =
      get_surface_resi pf ⟨mk, some rows₂, wc, wt, ws⟩ dir := by
  have hproc : processRows rows₁ = processRows rows₂ :=
    processRowsFrom_agree rows₁ rows₂ h ⟨[], []⟩
  simp only [get_surface_resi, hproc]

/-- C10, witness: a second input with an extra `Charge` column gives the same
result. -/
theorem c10_witness :
    List.Forall₂ rowAgree [[("Resi", "ALA"), ("Resi_Seq", "1"), ("Potential", "2.5")]]
      [[("Resi", "ALA"), ("Resi_Seq", "1"), ("Potential", "2.5"), ("Charge", "0.1")]] ∧
    get_surface_resi "prot"
        ⟨true, some [[("Resi", "ALA"), ("Resi_Seq", "1"), ("Potential", "2.5")]],
          true, true, true⟩ "out" =
      get_surface_resi "prot"
        ⟨true, some [[("Resi", "ALA"), ("Resi_Seq", "1"), ("Potential", "2.5"),
            ("Charge", "0.1")]], true, true, true⟩ "out" :=
  ⟨List.Forall₂.cons ⟨rfl, rfl, rfl⟩ List.Forall₂.nil,
    c10_only_three_columns "prot" "out" true true true true _ _
      (List.Forall₂.cons ⟨rfl, rfl, rfl⟩ List.Forall₂.nil)⟩

end SurfacePdbSasa
